import Mathlib

/-!
# Verification of the promptbuilder library (src/builder.ts)

A shallow embedding of the library's runtime behaviour.  JSON-like runtime
values (`unknown` on the TypeScript side) are modelled by the inductive type
`JValue`; JavaScript objects are modelled as association lists of fields in
insertion order (JavaScript's special enumeration order for integer-like
keys is not modelled); JavaScript numbers are modelled as integers, which
covers every numeric literal appearing in the library's documentation and
tests.  Strings are processed as character lists, mirroring the global
single-character regex replacements and the `{\x7b(\w+)\x7d}`-style template
scanning performed by the source.

The prototype chain of a plain object IS modelled, because the source tests
membership with the JavaScript `in` operator: `key in values` and
`values[key]` fall back to the inherited `Object.prototype` members
(`protoMembers` below), host function values reached that way are carried
by the `nativeFn` constructor (stringified by `String(...)` as V8 prints
them, dropped by `JSON.stringify`), and property assignment `acc[key] = v`
ignores the key `__proto__`, whose inherited accessor fires instead of
creating an own property.
-/

/-- JSON-like runtime values: the fragment of TypeScript `unknown` the
library manipulates (string, number, boolean, null, undefined, array,
plain object in field-insertion order). -/
inductive JValue where
  | str (s : String)
  | num (n : Int)
  | bool (b : Bool)
  | null
  | undef
  | arr (elems : List JValue)
  | obj (fields : List (String × JValue))
  | nativeFn (name : String)

/-- The apostrophe character (codepoint 39). -/
def apos : Char := Char.ofNat 39

/-- One global single-character replacement, the meaning of
`str.replace(/c/g, rep)` for a one-character pattern `c`. -/
def replaceChar (pat : Char) (rep : List Char) (s : List Char) : List Char :=
  s.flatMap fun c => if c = pat then rep else [c]

/-- `escapeXml` from src/builder.ts: five sequential global replacements,
ampersand first. -/
def escapeXml (str : String) : String :=
  String.mk (replaceChar apos "&apos;".toList
    (replaceChar '"' "&quot;".toList
      (replaceChar '>' "&gt;".toList
        (replaceChar '<' "&lt;".toList
          (replaceChar '&' "&amp;".toList str.toList)))))

/-- Per-character description of XML escaping: the five reserved characters
map to their entities, every other character is untouched.  Used to state
claim C4 against `escapeXml`. -/
def escapeCharSpec (c : Char) : List Char :=
  if c = '&' then "&amp;".toList
  else if c = '<' then "&lt;".toList
  else if c = '>' then "&gt;".toList
  else if c = '"' then "&quot;".toList
  else if c = apos then "&apos;".toList
  else [c]

/-- JSON string-character escaping as performed by `JSON.stringify`. -/
def jsonEscapeChar (c : Char) : List Char :=
  if c = '"' then ['\\', '"']
  else if c = '\\' then ['\\', '\\']
  else if c = Char.ofNat 8 then ['\\', 'b']
  else if c = Char.ofNat 9 then ['\\', 't']
  else if c = Char.ofNat 10 then ['\\', 'n']
  else if c = Char.ofNat 12 then ['\\', 'f']
  else if c = Char.ofNat 13 then ['\\', 'r']
  else if c.toNat < 32 then
    ['\\', 'u', '0', '0', (Nat.digitChar (c.toNat / 16)), (Nat.digitChar (c.toNat % 16))]
  else [c]

/-- A JSON string literal: quotes around the escaped characters. -/
def jsonQuote (s : String) : String :=
  "\"" ++ String.mk (s.toList.flatMap jsonEscapeChar) ++ "\""

mutual

/-- `JSON.stringify` over `JValue`.  `none` models the `undefined` result
(top-level `undefined` input). -/
def jsonStringify : JValue → Option String
  | JValue.str s => some (jsonQuote s)
  | JValue.num n => some (toString n)
  | JValue.bool b => some (cond b "true" "false")
  | JValue.null => some "null"
  | JValue.undef => none
  | JValue.nativeFn _ => none
  | JValue.arr elems => some ("[" ++ jsonArrayBody elems ++ "]")
  | JValue.obj fields => some ("\x7b" ++ jsonObjectBody fields ++ "\x7d")

/-- Array elements, comma separated; `undefined` elements render as `null`. -/
def jsonArrayBody : List JValue → String
  | [] => ""
  | [x] => (jsonStringify x).getD "null"
  | x :: y :: rest => (jsonStringify x).getD "null" ++ "," ++ jsonArrayBody (y :: rest)

/-- Object fields, comma separated; fields whose value stringifies to
`undefined` are dropped. -/
def jsonObjectBody : List (String × JValue) → String
  | [] => ""
  | (k, v) :: rest =>
    match jsonStringify v with
    | none => jsonObjectBody rest
    | some s =>
      if jsonFieldsNonempty rest then jsonQuote k ++ ":" ++ s ++ "," ++ jsonObjectBody rest
      else jsonQuote k ++ ":" ++ s

/-- Whether at least one remaining field survives stringification. -/
def jsonFieldsNonempty : List (String × JValue) → Bool
  | [] => false
  | (_, v) :: rest =>
    match jsonStringify v with
    | none => jsonFieldsNonempty rest
    | some _ => true

end

/-- Coercion of a `JSON.stringify` result to text as JavaScript string
interpolation does: `undefined` becomes the text `undefined`. -/
def jsonTextOf (v : JValue) : String :=
  (jsonStringify v).getD "undefined"

/-- The ` index="N"` attribute text. -/
def indexAttr : Option Nat → String
  | some i => " index=\"" ++ toString i ++ "\""
  | none => ""

mutual

/-- `objectToXml` from src/builder.ts.  The optional metadata record is
only ever `\x7bindex\x7d`, modelled as `Option Nat`. -/
def objectToXml : JValue → Option Nat → String
  | JValue.str s, _ => escapeXml s
  | JValue.num n, _ => toString n
  | JValue.bool b, _ => cond b "true" "false"
  | JValue.arr elems, _ => arrayToXml elems 0
  | JValue.null, _ => ""
  | JValue.undef, _ => ""
  | JValue.obj fields, metadata => fieldsToXml fields metadata
  | JValue.nativeFn name, _ => "function " ++ name ++ "() \x7b [native code] \x7d"

/-- `obj.map((item, index) => objectToXml(item, \x7b index \x7d)).join("")`. -/
def arrayToXml : List JValue → Nat → String
  | [], _ => ""
  | x :: xs, i => objectToXml x (some i) ++ arrayToXml xs (i + 1)

/-- `Object.entries(obj).map(([key, value]) => ...)`: each field becomes an
element; the index attribute appears exactly when metadata was supplied;
the recursive call receives no metadata. -/
def fieldsToXml : List (String × JValue) → Option Nat → String
  | [], _ => ""
  | (key, value) :: rest, metadata =>
    "<" ++ key ++ indexAttr metadata ++ ">" ++ objectToXml value none ++ "</" ++ key ++ ">"
      ++ fieldsToXml rest metadata

end

/-- Word characters of the JavaScript `\w` class: ASCII letters, digits,
underscore. -/
def isWordChar (c : Char) : Bool :=
  c.isAlpha || c.isDigit || c = '_'

/-- First lookup of an own key in a field list. -/
def lookupOwn (fields : List (String × JValue)) (key : String) : Option JValue :=
  match fields with
  | [] => none
  | (k, v) :: rest => if k = key then some v else lookupOwn rest key

/-- The members a plain object inherits from `Object.prototype`, as found
by the `in` operator and by property reads.  The methods and the
`constructor` function are host functions; the value read through the
`__proto__` accessor is `Object.prototype` itself, modelled extensionally
as an object with no (enumerable own) fields, matching its `JSON.stringify`
text `\x7b\x7d` and its empty `Object.entries`. -/
def protoMembers : List (String × JValue) :=
  [("constructor", JValue.nativeFn "Object"),
   ("hasOwnProperty", JValue.nativeFn "hasOwnProperty"),
   ("isPrototypeOf", JValue.nativeFn "isPrototypeOf"),
   ("propertyIsEnumerable", JValue.nativeFn "propertyIsEnumerable"),
   ("toLocaleString", JValue.nativeFn "toLocaleString"),
   ("toString", JValue.nativeFn "toString"),
   ("valueOf", JValue.nativeFn "valueOf"),
   ("__defineGetter__", JValue.nativeFn "__defineGetter__"),
   ("__defineSetter__", JValue.nativeFn "__defineSetter__"),
   ("__lookupGetter__", JValue.nativeFn "__lookupGetter__"),
   ("__lookupSetter__", JValue.nativeFn "__lookupSetter__"),
   ("__proto__", JValue.obj [])]

/-- The meaning of `key in values` together with `values[key]` for a plain
object: an own key's binding when present, otherwise the inherited
`Object.prototype` member, otherwise absent. -/
def lookupBag (values : List (String × JValue)) (key : String) : Option JValue :=
  match lookupOwn values key with
  | some v => some v
  | none => lookupOwn protoMembers key

/-- Attempt to match the regex `\x7b\x7b(\w+)\x7d\x7d` at the head of the
input: two braces, a maximal nonempty run of word characters, two braces.
Returns the identifier and the remaining input. -/
def holeMatch (l : List Char) : Option (List Char × List Char) :=
  match l with
  | c1 :: c2 :: rest =>
    if c1 = '{' ∧ c2 = '{' then
      let w := rest.takeWhile isWordChar
      if w.isEmpty then none
      else
        match rest.dropWhile isWordChar with
        | d1 :: d2 :: rest2 => if d1 = '}' ∧ d2 = '}' then some (w, rest2) else none
        | _ => none
    else none
  | _ => none

theorem holeMatch_some {l w rest : List Char} (h : holeMatch l = some (w, rest)) :
    l = '{' :: '{' :: (w ++ '}' :: '}' :: rest) ∧ w ≠ [] ∧ ∀ c ∈ w, isWordChar c := by
  match l with
  | [] => simp [holeMatch] at h
  | [c] => simp [holeMatch] at h
  | c1 :: c2 :: t =>
    unfold holeMatch at h
    simp only at h
    split at h
    case isTrue hc =>
      obtain ⟨rfl, rfl⟩ := hc
      split at h
      case isTrue => exact absurd h (by simp)
      case isFalse hw =>
        split at h
        case h_1 d1 d2 rest2 heq =>
          split at h
          case isTrue hd =>
            obtain ⟨rfl, rfl⟩ := hd
            simp only [Option.some.injEq, Prod.mk.injEq] at h
            obtain ⟨hw2, rfl⟩ := h
            refine ⟨?_, ?_, ?_⟩
            · have hsplit := List.takeWhile_append_dropWhile (p := isWordChar) (l := t)
              rw [hw2, heq] at hsplit
              simp only [List.cons.injEq, true_and]
              exact hsplit.symm
            · intro hnil
              rw [hnil] at hw2
              rw [hw2] at hw
              simp at hw
            · intro c hc
              rw [← hw2] at hc
              exact List.mem_takeWhile_imp hc
          case isFalse => exact absurd h (by simp)
        case h_2 => exact absurd h (by simp)
    case isFalse => exact absurd h (by simp)

theorem holeMatch_length {l w rest : List Char} (h : holeMatch l = some (w, rest)) :
    rest.length < l.length := by
  obtain ⟨rfl, -, -⟩ := holeMatch_some h
  simp only [List.length_cons, List.length_append, List.length_cons]
  omega

/-- The replacer callback `(match, key) => key in values ?
JSON.stringify(values[key]) : match`: the stringified bound value when the
identifier is a key of the bag, the whole placeholder unchanged otherwise. -/
def holeReplacement (values : List (String × JValue)) (w : List Char) : List Char :=
  match lookupBag values (String.mk w) with
  | some v => (jsonTextOf v).toList
  | none => '{' :: '{' :: (w ++ '}' :: '}' :: [])

/-- The template scanner: the meaning of
`template.replace(/\x7b\x7b(\w+)\x7d\x7d/g, fn)` where `fn` is
`holeReplacement`.  A failed match advances one character; a successful
match resumes after the match. -/
def interpolateChars (values : List (String × JValue)) : List Char → List Char
  | [] => []
  | c :: cs =>
    match h : holeMatch (c :: cs) with
    | some (w, rest) => holeReplacement values w ++ interpolateChars values rest
    | none => c :: interpolateChars values cs
termination_by l => l.length
decreasing_by
  · exact holeMatch_length h
  · simp

/-- `replaceTemplateVariables` from src/builder.ts. -/
def replaceTemplateVariables (template : String) (values : List (String × JValue)) : String :=
  String.mk (interpolateChars values template.toList)

/-- One example pair, as accumulated by `PromptBuilder.example`. -/
structure Example where
  input : JValue
  output : JValue

/-- The builder's configuration state: instruction template, examples,
task keys (the class's three private fields). -/
structure PromptBuilder where
  _instruction : String
  _examples : List Example
  _taskKeys : List String

/-- `promptBuilder()`: the empty configuration. -/
def promptBuilder : PromptBuilder :=
  ⟨"", [], []⟩

/-- `PromptBuilder.instruction`: fresh builder with the template replaced,
examples and task keys copied. -/
def PromptBuilder.instruction (b : PromptBuilder) (template : String) : PromptBuilder :=
  ⟨template, b._examples, b._taskKeys⟩

/-- `PromptBuilder.example`: fresh builder with one example pair appended. -/
def PromptBuilder.example (b : PromptBuilder) (input output : JValue) : PromptBuilder :=
  ⟨b._instruction, b._examples ++ [⟨input, output⟩], b._taskKeys⟩

/-- `PromptBuilder.taskKey`: fresh builder with one key appended. -/
def PromptBuilder.taskKey (b : PromptBuilder) (key : String) : PromptBuilder :=
  ⟨b._instruction, b._examples, b._taskKeys ++ [key]⟩

/-- JavaScript property assignment `acc[key] = v` on a plain object:
for the key `__proto__` the inherited accessor fires and no own property
is created; otherwise overwrite in place when the own key exists, append
otherwise. -/
def objInsert (acc : List (String × JValue)) (key : String) (v : JValue) :
    List (String × JValue) :=
  if key = "__proto__" then acc
  else if acc.any (fun p => p.1 = key) then
    acc.map (fun p => if p.1 = key then (key, v) else p)
  else acc ++ [(key, v)]

/-- One step of the task-object `reduce`: copy the key's binding when the
key is in the bag, otherwise leave the accumulator alone. -/
def taskObjectStep (values : List (String × JValue)) (acc : List (String × JValue))
    (key : String) : List (String × JValue) :=
  match lookupBag values key with
  | some v => objInsert acc key v
  | none => acc

/-- The `taskKeys.reduce(...)` sub-object built inside `build`. -/
def taskObject (taskKeys : List String) (values : List (String × JValue)) :
    List (String × JValue) :=
  taskKeys.foldl (taskObjectStep values) []

/-- `PromptBuilder.build` applied to a value bag: interpolate the
instruction, append the examples section when examples exist, append the
task section when task keys exist. -/
def PromptBuilder.build (b : PromptBuilder) (values : List (String × JValue)) : String :=
  let interpolatedPrompt := replaceTemplateVariables b._instruction values
  let result := "<instructions>" ++ interpolatedPrompt ++ "</instructions>"
  let result := if b._examples.length > 0 then
    result ++ "\n\n<examples>" ++
      String.join (b._examples.enum.map fun p =>
        "\n<example index=\"" ++ toString p.1 ++ "\"><input>" ++
          objectToXml p.2.input none ++ "</input><output>" ++
          jsonTextOf p.2.output ++ "</output></example>") ++
      "\n</examples>"
    else result
  let result := if b._taskKeys.length > 0 then
    let taskXml := objectToXml (JValue.obj (taskObject b._taskKeys values)) none
    result ++ "\n\n<task>" ++ taskXml ++ "</task>"
    else result
  result

/-! ## String-level helper lemmas -/

theorem foldlAppend_data (l : List String) :
    ∀ a : String, (l.foldl (· ++ ·) a).data = a.data ++ l.flatMap String.data := by
  induction l with
  | nil => intro a; simp
  | cons s t ih =>
    intro a
    simp [List.foldl_cons, ih, List.flatMap_cons, List.append_assoc]

theorem join_data (l : List String) : (String.join l).data = l.flatMap String.data := by
  have h := foldlAppend_data l ""
  simpa [String.join] using h

theorem join_cons (s : String) (l : List String) :
    String.join (s :: l) = s ++ String.join l := by
  apply String.ext
  simp [join_data, List.flatMap_cons]

/-! ## Claim theorems -/

/-- C6: the structural serializer, called with no positional metadata, sends
a string to its XML-escaped text, a number or boolean to its literal
stringified text, and both null and undefined to the empty string. -/
theorem serializer_primitives :
    (∀ s : String, objectToXml (JValue.str s) none = escapeXml s)
  ∧ (∀ n : Int, objectToXml (JValue.num n) none = toString n)
  ∧ (∀ b : Bool, objectToXml (JValue.bool b) none = toString b)
  ∧ objectToXml JValue.null none = ""
  ∧ objectToXml JValue.undef none = "" := by
  refine ⟨fun s => ?_, fun n => ?_, fun b => ?_, ?_, ?_⟩
  · simp [objectToXml]
  · simp [objectToXml]
  · cases b <;> simp [objectToXml] <;> rfl
  · simp [objectToXml]
  · simp [objectToXml]

/-- C7: instruction, example and taskKey each return a configuration derived
from the receiver by exactly one change: instruction replaces the template
and keeps examples and task keys; example appends one pair and keeps the
rest; taskKey appends one name and keeps the rest.  (The receiver itself is
an immutable value in this embedding, so it is unchanged by construction.) -/
theorem builder_ops_frame :
    (∀ (b : PromptBuilder) (t : String),
        (b.instruction t)._instruction = t ∧
        (b.instruction t)._examples = b._examples ∧
        (b.instruction t)._taskKeys = b._taskKeys)
  ∧ (∀ (b : PromptBuilder) (i o : JValue),
        (b.example i o)._instruction = b._instruction ∧
        (b.example i o)._examples = b._examples ++ [⟨i, o⟩] ∧
        (b.example i o)._taskKeys = b._taskKeys)
  ∧ (∀ (b : PromptBuilder) (k : String),
        (b.taskKey k)._instruction = b._instruction ∧
        (b.taskKey k)._examples = b._examples ∧
        (b.taskKey k)._taskKeys = b._taskKeys ++ [k]) :=
  ⟨fun _ _ => ⟨rfl, rfl, rfl⟩, fun _ _ _ => ⟨rfl, rfl, rfl⟩, fun _ _ => ⟨rfl, rfl, rfl⟩⟩

/-- C8: escaping is not idempotent: on the already-escaped string `&amp;`
a second pass re-escapes the ampersand, so double escaping differs from
single escaping. -/
theorem escapeXml_not_idempotent :
    escapeXml (escapeXml "&amp;") ≠ escapeXml "&amp;" ∧ escapeXml "&amp;" = "&amp;amp;" := by
  constructor
  · decide
  · decide

theorem replaceChar_append (p : Char) (r a b : List Char) :
    replaceChar p r (a ++ b) = replaceChar p r a ++ replaceChar p r b := by
  simp [replaceChar]

theorem escapeChain_single (c : Char) :
    replaceChar apos "&apos;".toList
      (replaceChar '"' "&quot;".toList
        (replaceChar '>' "&gt;".toList
          (replaceChar '<' "&lt;".toList
            (replaceChar '&' "&amp;".toList [c])))) = escapeCharSpec c := by
  by_cases h1 : c = '&'
  · subst h1; decide
  · by_cases h2 : c = '<'
    · subst h2; decide
    · by_cases h3 : c = '>'
      · subst h3; decide
      · by_cases h4 : c = '"'
        · subst h4; decide
        · by_cases h5 : c = apos
          · subst h5; decide
          · simp [replaceChar, escapeCharSpec, h1, h2, h3, h4, h5]

/-- C4: the escaper is exactly the per-character substitution replacing
every occurrence of the five reserved characters by their entities and
leaving every other character alone; because the ampersand pass runs
first, no entity introduced by a later pass is re-escaped, which is what
`escapeCharSpec` records. -/
theorem escapeXml_charwise (s : String) :
    escapeXml s = String.mk (s.toList.flatMap escapeCharSpec) := by
  unfold escapeXml
  congr 1
  generalize s.toList = l
  induction l with
  | nil => rfl
  | cons c t ih =>
    have h : (c :: t) = [c] ++ t := rfl
    rw [h]
    simp only [replaceChar_append, List.flatMap_append, escapeChain_single, ih,
      List.flatMap_cons, List.flatMap_nil, List.append_nil]

theorem mk_data (l : List Char) : (String.mk l).data = l := rfl

theorem data_empty : ("" : String).data = [] := rfl

theorem objectToXml_arr (xs : List JValue) (md : Option Nat) :
    objectToXml (JValue.arr xs) md = arrayToXml xs 0 := by
  simp [objectToXml]

theorem objectToXml_obj (fields : List (String × JValue)) (md : Option Nat) :
    objectToXml (JValue.obj fields) md = fieldsToXml fields md := by
  simp [objectToXml]

theorem fieldsToXml_join (fields : List (String × JValue)) (md : Option Nat) :
    fieldsToXml fields md = String.join (fields.map fun p =>
      "<" ++ p.1 ++ indexAttr md ++ ">" ++ objectToXml p.2 none ++ "</" ++ p.1 ++ ">") := by
  induction fields with
  | nil => rfl
  | cons f rest ih =>
    apply String.ext
    simp only [fieldsToXml, ih, List.map_cons, join_data, List.flatMap_cons,
      String.data_append, List.append_assoc]

theorem arrayToXml_map_single (f : String) (vs : List JValue) :
    ∀ i : Nat, arrayToXml (vs.map fun v => JValue.obj [(f, v)]) i
      = String.join ((vs.enumFrom i).map fun p =>
          "<" ++ f ++ " index=\"" ++ toString p.1 ++ "\">" ++ objectToXml p.2 none
            ++ "</" ++ f ++ ">") := by
  induction vs with
  | nil => intro i; rfl
  | cons v rest ih =>
    intro i
    apply String.ext
    simp only [List.map_cons, arrayToXml, objectToXml_obj, fieldsToXml, indexAttr,
      List.enumFrom_cons, join_data, List.flatMap_cons, String.data_append, ih,
      List.append_assoc, data_empty, List.append_nil, List.nil_append,
      List.cons_append, List.singleton_append]

/-- C3: serializing an array of single-field mappings yields one
`<f index="i">...</f>` element per item, indexed 0..k-1 in order with no
wrapper per item; and on any object the received positional metadata is
stamped on each immediate field element while every recursive call on the
field values runs without metadata. -/
theorem serializer_array_indexing :
    (∀ (f : String) (vs : List JValue),
        objectToXml (JValue.arr (vs.map fun v => JValue.obj [(f, v)])) none
          = String.join (vs.enum.map fun p =>
              "<" ++ f ++ " index=\"" ++ toString p.1 ++ "\">" ++ objectToXml p.2 none
                ++ "</" ++ f ++ ">"))
  ∧ (∀ (fields : List (String × JValue)) (i : Nat),
        objectToXml (JValue.obj fields) (some i)
          = String.join (fields.map fun p =>
              "<" ++ p.1 ++ " index=\"" ++ toString i ++ "\">" ++ objectToXml p.2 none
                ++ "</" ++ p.1 ++ ">")) := by
  constructor
  · intro f vs
    rw [objectToXml_arr]
    exact arrayToXml_map_single f vs 0
  · intro fields i
    rw [objectToXml_obj, fieldsToXml_join]
    have hfun : ∀ p : String × JValue,
        "<" ++ p.1 ++ indexAttr (some i) ++ ">" ++ objectToXml p.2 none ++ "</" ++ p.1 ++ ">"
          = "<" ++ p.1 ++ " index=\"" ++ toString i ++ "\">" ++ objectToXml p.2 none
              ++ "</" ++ p.1 ++ ">" := by
      intro p
      apply String.ext
      simp only [indexAttr, String.data_append, List.append_assoc, List.cons_append,
        List.singleton_append, List.nil_append]
    simp only [hfun]

theorem objInsert_of_not_mem {acc : List (String × JValue)} {key : String} (v : JValue)
    (hkey : key ≠ "__proto__") (h : key ∉ acc.map Prod.fst) :
    objInsert acc key v = acc ++ [(key, v)] := by
  unfold objInsert
  rw [if_neg hkey, if_neg]
  intro hany
  rw [List.any_eq_true] at hany
  obtain ⟨p, hp, hpk⟩ := hany
  simp only [decide_eq_true_eq] at hpk
  exact h (List.mem_map.mpr ⟨p, hp, hpk⟩)

theorem taskObject_go (values : List (String × JValue)) :
    ∀ (ks : List String) (acc : List (String × JValue)),
      ks.Nodup → (∀ k ∈ ks, k ≠ "__proto__") → (∀ k ∈ ks, k ∉ acc.map Prod.fst) →
      ks.foldl (taskObjectStep values) acc
        = acc ++ ks.filterMap fun k => (lookupBag values k).map fun v => (k, v) := by
  intro ks
  induction ks with
  | nil => intro acc _ _ _; simp
  | cons k ks ih =>
    intro acc hnd hnp hdisj
    rw [List.nodup_cons] at hnd
    have hnp2 : ∀ k2 ∈ ks, k2 ≠ "__proto__" :=
      fun k2 hk2 => hnp k2 (List.mem_cons_of_mem _ hk2)
    simp only [List.foldl_cons, List.filterMap_cons]
    cases hlk : lookupBag values k with
    | none =>
      have hstep : taskObjectStep values acc k = acc := by
        simp [taskObjectStep, hlk]
      rw [hstep, ih acc hnd.2 hnp2 (fun k2 hk2 => hdisj k2 (List.mem_cons_of_mem _ hk2))]
      simp [hlk]
    | some v =>
      have hknotin : k ∉ acc.map Prod.fst := hdisj k (List.mem_cons_self _ _)
      have hstep : taskObjectStep values acc k = acc ++ [(k, v)] := by
        simp only [taskObjectStep, hlk]
        exact objInsert_of_not_mem v (hnp k (List.mem_cons_self _ _)) hknotin
      rw [hstep, ih (acc ++ [(k, v)]) hnd.2 hnp2 ?_]
      · simp [hlk, List.append_assoc]
      · intro k2 hk2
        simp only [List.map_append, List.mem_append, List.map_cons, List.map_nil,
          List.mem_singleton, not_or]
        constructor
        · exact hdisj k2 (List.mem_cons_of_mem _ hk2)
        · intro hk2k
          exact hnd.1 (hk2k ▸ hk2)

theorem taskObjectStep_ext {values values' : List (String × JValue)}
    (h : ∀ k, lookupBag values k = lookupBag values' k) :
    taskObjectStep values = taskObjectStep values' := by
  funext acc key
  unfold taskObjectStep
  rw [h key]

/-- C5 (amended): for distinct declared task keys, none of them the special
`__proto__` accessor, the task sub-mapping is exactly the declared keys the
`in` operator finds — own bag keys bound to their bag values, otherwise
inherited `Object.prototype` members bound to the inherited values — in
declared order; only declared keys that are neither own nor inherited are
silently dropped.  The sub-mapping depends on the bag only through key
lookup, hence not on the bag's own key order. -/
theorem taskObject_declared_keys :
    (∀ (ks : List String) (values : List (String × JValue)), ks.Nodup →
        "__proto__" ∉ ks →
        taskObject ks values
          = ks.filterMap fun k => (lookupBag values k).map fun v => (k, v))
  ∧ (∀ (ks : List String) (values values' : List (String × JValue)),
        (∀ k, lookupBag values k = lookupBag values' k) →
        taskObject ks values = taskObject ks values') := by
  constructor
  · intro ks values hnd hproto
    unfold taskObject
    rw [taskObject_go values ks [] hnd (fun k hk hkp => hproto (hkp ▸ hk)) (by simp)]
    simp
  · intro ks values values' h
    unfold taskObject
    rw [taskObjectStep_ext h]

/-- C5: counterexample to the original claim: the declared key `toString`
is absent from the empty bag yet is not silently omitted — the `in`
operator finds the inherited `Object.prototype.toString`, which is copied
into the sub-mapping. -/
theorem taskObject_proto_counterexample :
    taskObject ["toString"] [] = [("toString", JValue.nativeFn "toString")]
  ∧ taskObject ["toString"] [] ≠ [] := by
  have h : taskObject ["toString"] [] = [("toString", JValue.nativeFn "toString")] := rfl
  refine ⟨h, ?_⟩
  rw [h]
  simp

theorem taskObject_declared_keys_witness :
    ((["userId", "action", "missing"] : List String).Nodup ∧
      ("__proto__" ∉ (["userId", "action", "missing"] : List String)) ∧
      taskObject ["userId", "action", "missing"]
          [("action", JValue.str "login"), ("userId", JValue.num 123)]
        = (["userId", "action", "missing"].filterMap fun k =>
            (lookupBag [("action", JValue.str "login"), ("userId", JValue.num 123)] k).map
              fun v => (k, v)))
  ∧ taskObject ["userId"] [("userId", JValue.num 1), ("extra", JValue.num 2)]
      = taskObject ["userId"] [("userId", JValue.num 1), ("extra", JValue.num 2)] :=
  ⟨⟨by decide, by decide, taskObject_declared_keys.1 _ _ (by decide) (by decide)⟩,
    taskObject_declared_keys.2 _ _ _ (fun _ => rfl)⟩


theorem interp_nil (values : List (String × JValue)) : interpolateChars values [] = [] := by
  simp [interpolateChars]

theorem interp_cons_none {c : Char} {cs : List Char} (values : List (String × JValue))
    (h : holeMatch (c :: cs) = none) :
    interpolateChars values (c :: cs) = c :: interpolateChars values cs := by
  conv_lhs => unfold interpolateChars
  split
  · rename_i w rest heq
    rw [h] at heq
    exact absurd heq (by simp)
  · rfl

theorem interp_cons_some {c : Char} {cs w rest : List Char} (values : List (String × JValue))
    (h : holeMatch (c :: cs) = some (w, rest)) :
    interpolateChars values (c :: cs)
      = holeReplacement values w ++ interpolateChars values rest := by
  conv_lhs => unfold interpolateChars
  split
  · rename_i w2 rest2 heq
    rw [h] at heq
    injection heq with heq2
    injection heq2 with h1 h2
    rw [h1, h2]
  · rename_i heq
    rw [h] at heq
    exact absurd heq (by simp)

theorem takeWhile_all_append {p : Char → Bool} {xs : List Char} {y : Char} {t : List Char}
    (hxs : ∀ c ∈ xs, p c) (hy : ¬ p y) :
    (xs ++ y :: t).takeWhile p = xs ∧ (xs ++ y :: t).dropWhile p = y :: t := by
  induction xs with
  | nil =>
    constructor
    · simp [List.takeWhile_cons, hy]
    · simp [List.dropWhile_cons, hy]
  | cons x xs ih =>
    have hx : p x := hxs x (List.mem_cons_self _ _)
    have ih2 := ih (fun c hc => hxs c (List.mem_cons_of_mem _ hc))
    constructor
    · simp [List.takeWhile_cons, hx, ih2.1]
    · simp [List.dropWhile_cons, hx, ih2.2]

theorem holeMatch_of_hole {w : List Char} (F : List Char) (hid : w ≠ [])
    (hw : ∀ c ∈ w, isWordChar c) :
    holeMatch ('{' :: '{' :: (w ++ '}' :: '}' :: F)) = some (w, F) := by
  have hbrace : ¬ isWordChar '}' := by decide
  have htd := takeWhile_all_append (t := '}' :: F) hw hbrace
  simp only [holeMatch, htd.1, htd.2]
  rw [if_pos (by simp), if_neg (by simpa using hid), if_pos (by simp)]

theorem holeMatch_none_head {c : Char} {cs : List Char} (h : c ≠ '{') :
    holeMatch (c :: cs) = none := by
  match cs with
  | [] => simp [holeMatch]
  | c2 :: t =>
    simp only [holeMatch]
    rw [if_neg]
    intro hc
    exact h hc.1

/-- Template decomposition for stating claim C2: a template is a sequence of
literal runs and `\x7b\x7bid\x7d\x7d` placeholders. -/
inductive Segment where
  | lit (s : List Char)
  | hole (id : List Char)

/-- The text of one segment. -/
def flattenSeg : Segment → List Char
  | Segment.lit s => s
  | Segment.hole id => '{' :: '{' :: (id ++ '}' :: '}' :: [])

/-- The template text of a decomposition. -/
def flattenSegs (segs : List Segment) : List Char :=
  segs.flatMap flattenSeg

/-- What the spec says each segment interpolates to: literal text verbatim,
a placeholder to its replacement. -/
def renderSeg (values : List (String × JValue)) : Segment → List Char
  | Segment.lit s => s
  | Segment.hole id => holeReplacement values id

/-- The interpolation of a decomposition, per the spec. -/
def renderSegs (values : List (String × JValue)) (segs : List Segment) : List Char :=
  segs.flatMap (renderSeg values)

/-- Well-formed segment: literal runs contain no opening brace (so they can
spawn no placeholder), identifiers are nonempty runs of word characters. -/
def segWF : Segment → Bool
  | Segment.lit s => s.all fun c => !(c == '{')
  | Segment.hole id => !id.isEmpty && id.all isWordChar

/-- Well-formed decomposition. -/
def segsWF (segs : List Segment) : Bool :=
  segs.all segWF

theorem interp_lit_run (values : List (String × JValue)) :
    ∀ s tail : List Char, (∀ c ∈ s, c ≠ '{') →
      interpolateChars values (s ++ tail) = s ++ interpolateChars values tail := by
  intro s
  induction s with
  | nil => intro tail _; simp
  | cons c s2 ih =>
    intro tail hnb
    have hc : c ≠ '{' := hnb c (List.mem_cons_self _ _)
    rw [List.cons_append, interp_cons_none values (holeMatch_none_head hc),
      ih tail (fun c2 hc2 => hnb c2 (List.mem_cons_of_mem _ hc2))]
    rfl

theorem interp_flatten (values : List (String × JValue)) :
    ∀ segs : List Segment, segsWF segs →
      interpolateChars values (flattenSegs segs) = renderSegs values segs := by
  intro segs
  induction segs with
  | nil => intro _; simp [flattenSegs, renderSegs, interp_nil]
  | cons seg rest ih =>
    intro hwf
    have hseg : segWF seg := (List.all_eq_true.mp hwf) seg (List.mem_cons_self _ _)
    have hrest : segsWF rest := by
      apply List.all_eq_true.mpr
      intro x hx
      exact (List.all_eq_true.mp hwf) x (List.mem_cons_of_mem _ hx)
    match seg with
    | Segment.lit s =>
      have hnb : ∀ c ∈ s, c ≠ '{' := by
        intro c hc
        have hx := List.all_eq_true.mp hseg c hc
        simpa using hx
      have hflat : flattenSegs (Segment.lit s :: rest) = s ++ flattenSegs rest := by
        simp [flattenSegs, flattenSeg, List.flatMap_cons]
      rw [hflat, interp_lit_run values s (flattenSegs rest) hnb, ih hrest]
      simp [renderSegs, renderSeg, List.flatMap_cons]
    | Segment.hole id =>
      have hid : id ≠ [] := by
        simp only [segWF, Bool.and_eq_true] at hseg
        simpa using hseg.1
      have hwc : ∀ c ∈ id, isWordChar c := by
        simp only [segWF, Bool.and_eq_true] at hseg
        exact fun c hc => List.all_eq_true.mp hseg.2 c hc
      have hflat : flattenSegs (Segment.hole id :: rest)
          = '{' :: '{' :: (id ++ '}' :: '}' :: flattenSegs rest) := by
        simp [flattenSegs, flattenSeg, List.flatMap_cons, List.append_assoc]
      rw [hflat]
      have hm : holeMatch ('{' :: '{' :: (id ++ '}' :: '}' :: flattenSegs rest))
          = some (id, flattenSegs rest) := by
        have hh := holeMatch_of_hole (w := id) (flattenSegs rest) hid hwc
        simpa [List.append_assoc] using hh
      rw [interp_cons_some values hm, ih hrest]
      simp [renderSegs, renderSeg, List.flatMap_cons]

/-- C2 (amended): over any well-formed decomposition of the template into
literal runs and placeholders, the interpolator replaces each placeholder
whose identifier the `in` operator finds — an own bag key, or otherwise an
inherited `Object.prototype` member — by the JSON-stringified value
(coerced to the text `undefined` when stringification yields none), leaves
placeholders whose identifier is neither verbatim including braces, and
leaves literal text unchanged; moreover the empty template yields the
empty string, and a template containing no opening brace is returned
unchanged under every bag. -/
theorem interpolator_spec :
    (∀ (segs : List Segment) (values : List (String × JValue)), segsWF segs →
        replaceTemplateVariables (String.mk (flattenSegs segs)) values
          = String.mk (renderSegs values segs))
  ∧ (∀ values : List (String × JValue), replaceTemplateVariables "" values = "")
  ∧ (∀ (t : String) (values : List (String × JValue)), (∀ c ∈ t.toList, c ≠ '{') →
        replaceTemplateVariables t values = t) := by
  refine ⟨fun segs values h => ?_, fun values => ?_, fun t values hnb => ?_⟩
  · unfold replaceTemplateVariables
    congr 1
    exact interp_flatten values segs h
  · unfold replaceTemplateVariables
    apply String.ext
    rw [mk_data]
    exact interp_nil values
  · unfold replaceTemplateVariables
    apply String.ext
    rw [mk_data]
    have h := interp_lit_run values t.toList [] hnb
    simpa [interp_nil] using h

/-- C2: counterexample to the original claim: the identifier `toString` is
absent from the empty bag, yet the placeholder is not left unchanged — the
`in` operator finds the inherited `Object.prototype.toString`, whose
`JSON.stringify` is undefined, so the replacer's return coerces to the
text `undefined`. -/
theorem interpolator_proto_counterexample :
    replaceTemplateVariables "\x7b\x7btoString\x7d\x7d" [] = "undefined"
  ∧ replaceTemplateVariables "\x7b\x7btoString\x7d\x7d" [] ≠ "\x7b\x7btoString\x7d\x7d" := by
  have htl : ("\x7b\x7btoString\x7d\x7d".toList)
      = '{' :: '{' :: ("toString".toList ++ '}' :: '}' :: []) := by decide
  have hm : holeMatch ('{' :: '{' :: ("toString".toList ++ '}' :: '}' :: []))
      = some ("toString".toList, []) := by decide
  have h1 : replaceTemplateVariables "\x7b\x7btoString\x7d\x7d" [] = "undefined" := by
    unfold replaceTemplateVariables
    apply String.ext
    rw [mk_data, htl, interp_cons_some [] hm, interp_nil, List.append_nil]
    decide
  refine ⟨h1, ?_⟩
  rw [h1]
  decide

theorem interpolator_spec_witness :
    segsWF [Segment.lit "Translate ".toList, Segment.hole "text".toList,
        Segment.lit " to ".toList, Segment.hole "language".toList] = true
  ∧ replaceTemplateVariables
        (String.mk (flattenSegs [Segment.lit "Translate ".toList, Segment.hole "text".toList,
          Segment.lit " to ".toList, Segment.hole "language".toList]))
        [("text", JValue.str "Hello")]
      = String.mk (renderSegs [("text", JValue.str "Hello")]
          [Segment.lit "Translate ".toList, Segment.hole "text".toList,
            Segment.lit " to ".toList, Segment.hole "language".toList]) :=
  ⟨by decide, interpolator_spec.1 _ _ (by decide)⟩

theorem interp_bag_ext {values values' : List (String × JValue)}
    (h : ∀ k, lookupBag values k = lookupBag values' k) :
    ∀ (n : Nat) (l : List Char), l.length ≤ n →
      interpolateChars values l = interpolateChars values' l := by
  have hrep : holeReplacement values = holeReplacement values' := by
    funext w
    unfold holeReplacement
    rw [h (String.mk w)]
  intro n
  induction n with
  | zero =>
    intro l hl
    match l with
    | [] => rw [interp_nil, interp_nil]
    | c :: cs => simp at hl
  | succ n ih =>
    intro l hl
    match l with
    | [] => rw [interp_nil, interp_nil]
    | c :: cs =>
      cases hm : holeMatch (c :: cs) with
      | none =>
        rw [interp_cons_none values hm, interp_cons_none values' hm,
          ih cs (by simp at hl; omega)]
      | some p =>
        obtain ⟨w, rest⟩ := p
        have hlen := holeMatch_length hm
        rw [interp_cons_some values hm, interp_cons_some values' hm, hrep,
          ih rest (by simp at hl hlen ⊢; omega)]

/-- C9: the finalized prompt function is deterministic and reads its value
bag only through key lookup: two bags with identical lookups (in
particular, the same bag, or a reordering of a duplicate-free bag) produce
identical output, and the bag itself is never written (all embedding
functions are pure). -/
theorem build_pure_lookup_ext (b : PromptBuilder) (values values' : List (String × JValue))
    (h : ∀ k, lookupBag values k = lookupBag values' k) :
    b.build values = b.build values' := by
  have h1 : replaceTemplateVariables b._instruction values
      = replaceTemplateVariables b._instruction values' := by
    unfold replaceTemplateVariables
    congr 1
    exact interp_bag_ext h _ _ le_rfl
  have h2 : taskObject b._taskKeys values = taskObject b._taskKeys values' := by
    unfold taskObject
    rw [taskObjectStep_ext h]
  unfold PromptBuilder.build
  rw [h1, h2]

theorem build_pure_lookup_ext_witness :
    ((promptBuilder.instruction "Analyze {{a}}").taskKey "b").build
        [("a", JValue.num 1), ("b", JValue.num 2)]
      = ((promptBuilder.instruction "Analyze {{a}}").taskKey "b").build
        [("b", JValue.num 2), ("a", JValue.num 1)] := by
  apply build_pure_lookup_ext
  intro k
  by_cases hka : ("a" : String) = k
  · cases hka
    rfl
  · by_cases hkb : ("b" : String) = k
    · cases hkb
      rfl
    · simp [lookupBag, lookupOwn, hka, hkb]

/-- C1: the finalized prompt is exactly the instructions element, then —
only when examples exist — a blank line and the examples element with one
newline-prefixed, index-attributed example per pair, then — only when task
keys exist — a blank line and the task element; omitted sections
contribute nothing, separators included. -/
theorem build_output_format (b : PromptBuilder) (values : List (String × JValue)) :
    b.build values
      = "<instructions>" ++ replaceTemplateVariables b._instruction values ++ "</instructions>"
        ++ (if b._examples.isEmpty then "" else
              "\n\n<examples>" ++
                String.join (b._examples.enum.map fun p =>
                  "\n<example index=\"" ++ toString p.1 ++ "\"><input>"
                    ++ objectToXml p.2.input none ++ "</input><output>"
                    ++ jsonTextOf p.2.output ++ "</output></example>") ++ "\n</examples>")
        ++ (if b._taskKeys.isEmpty then "" else
              "\n\n<task>" ++ objectToXml (JValue.obj (taskObject b._taskKeys values)) none
                ++ "</task>") := by
  unfold PromptBuilder.build
  cases hE : b._examples <;> cases hT : b._taskKeys <;>
    simp only [hE, hT] <;>
    · apply String.ext
      simp [String.data_append, data_empty, List.append_assoc]

theorem taskObject_all_missing (values : List (String × JValue)) :
    ∀ (ks : List String) (acc : List (String × JValue)),
      (∀ k ∈ ks, lookupBag values k = none) →
      ks.foldl (taskObjectStep values) acc = acc := by
  intro ks
  induction ks with
  | nil => intro acc _; rfl
  | cons k ks ih =>
    intro acc hmiss
    have hk : lookupBag values k = none := hmiss k (List.mem_cons_self _ _)
    have hstep : taskObjectStep values acc k = acc := by
      simp [taskObjectStep, hk]
    rw [List.foldl_cons, hstep, ih acc (fun k2 hk2 => hmiss k2 (List.mem_cons_of_mem _ hk2))]

/-- C10 (amended): when task keys are declared but the `in` check fails for
every one of them — each declared key is neither an own bag key nor an
inherited `Object.prototype` member — the task section is still emitted,
with empty content: the output ends in a blank line followed by an empty
task element. -/
theorem build_empty_task_section (b : PromptBuilder) (values : List (String × JValue))
    (h1 : b._taskKeys ≠ []) (h2 : ∀ k ∈ b._taskKeys, lookupBag values k = none) :
    ∃ p : String, b.build values = p ++ "\n\n<task></task>" := by
  have hobj : taskObject b._taskKeys values = [] :=
    taskObject_all_missing values b._taskKeys [] h2
  have hxml : objectToXml (JValue.obj (taskObject b._taskKeys values)) none = "" := by
    rw [hobj]
    simp [objectToXml, fieldsToXml]
  unfold PromptBuilder.build
  cases hE : b._examples with
  | nil =>
    refine ⟨"<instructions>" ++ replaceTemplateVariables b._instruction values
      ++ "</instructions>", ?_⟩
    rcases hT : b._taskKeys with _ | ⟨k, ks⟩
    · exact absurd hT h1
    · rw [hT] at hxml
      simp only [hE, hT]
      apply String.ext
      simp [String.data_append, data_empty, List.append_assoc, hxml]
  | cons e es =>
    refine ⟨"<instructions>" ++ replaceTemplateVariables b._instruction values
      ++ "</instructions>" ++ ("\n\n<examples>" ++
          String.join ((e :: es).enum.map fun p =>
            "\n<example index=\"" ++ toString p.1 ++ "\"><input>"
              ++ objectToXml p.2.input none ++ "</input><output>"
              ++ jsonTextOf p.2.output ++ "</output></example>") ++ "\n</examples>"), ?_⟩
    rcases hT : b._taskKeys with _ | ⟨k, ks⟩
    · exact absurd hT h1
    · rw [hT] at hxml
      simp only [hE, hT]
      apply String.ext
      simp [String.data_append, data_empty, List.append_assoc, hxml]

theorem append_suffix_rev_take {a b c : String} (h : a = b ++ c) :
    a.data.reverse.take c.data.length = c.data.reverse := by
  subst h
  rw [String.data_append, List.reverse_append, ← List.length_reverse, List.take_left]

/-- C10: counterexample to the original claim: the declared key `toString`
is absent from the empty bag, yet `key in values` is true through the
prototype chain, so the task section serializes the inherited function and
the output does not end with an empty task element. -/
theorem build_task_proto_counterexample :
    ¬ ∃ p : String, (promptBuilder.taskKey "toString").build []
      = p ++ "\n\n<task></task>" := by
  have hrtv : replaceTemplateVariables "" [] = "" := by
    unfold replaceTemplateVariables
    apply String.ext
    rw [mk_data]
    exact interp_nil []
  have hbuild : (promptBuilder.taskKey "toString").build []
      = "<instructions></instructions>\n\n<task><toString>function toString() \x7b [native code] \x7d</toString></task>" := by
    simp only [PromptBuilder.build, promptBuilder, PromptBuilder.taskKey]
    rw [hrtv]
    decide
  rintro ⟨p, hp⟩
  rw [hbuild] at hp
  have h := append_suffix_rev_take hp
  have hne : ("<instructions></instructions>\n\n<task><toString>function toString() \x7b [native code] \x7d</toString></task>" : String).data.reverse.take
        ("\n\n<task></task>" : String).data.length
      ≠ ("\n\n<task></task>" : String).data.reverse := by decide
  exact hne h

theorem build_empty_task_section_witness :
    ∃ p : String, (promptBuilder.taskKey "userId").build [("other", JValue.num 7)]
      = p ++ "\n\n<task></task>" := by
  apply build_empty_task_section
  · simp [promptBuilder, PromptBuilder.taskKey]
  · intro k hk
    simp [promptBuilder, PromptBuilder.taskKey] at hk
    rw [hk]
    rfl
